import Mathlib

/-!
Verification of the memorization core of `Breathe-Script`
(`src/components/Memorizer.tsx`), shallowly embedded in Lean.

Text is modelled as `List Char`; JS numbers that hold integer counters are
modelled as `ℤ`/`ℕ`, and JS floating-point quantities (timestamps, elapsed
seconds) as `ℚ` with the source's exact arithmetic shape.
-/

namespace Breathe

/-- The character class of the JS regex `\s` (ECMA-262 WhiteSpace ∪
LineTerminator), used by `content.split(/(\s+)/)` and `/\S/.test(w)` in
`Memorizer.tsx`. -/
def jsWhitespace (c : Char) : Bool :=
  c.toNat == 9 || c.toNat == 10 || c.toNat == 11 || c.toNat == 12 ||
  c.toNat == 13 || c.toNat == 32 || c.toNat == 0xa0 || c.toNat == 0x1680 ||
  (0x2000 ≤ c.toNat && c.toNat ≤ 0x200a) || c.toNat == 0x2028 ||
  c.toNat == 0x2029 || c.toNat == 0x202f || c.toNat == 0x205f ||
  c.toNat == 0x3000 || c.toNat == 0xfeff

/-- Line 14 of `Memorizer.tsx`: `script.content.split(/(\s+)/)`.

JS `String.prototype.split` with the capturing regex `(\s+)` repeatedly finds
the leftmost maximal whitespace run, emits the (possibly empty) chunk before
it, then the captured run itself, and finally the (possibly empty) remainder;
`"".split(/(\s+)/)` is `[""]`.  Equivalently, the output is the list of
maximal homogeneous runs of the text with an empty "word" chunk at either end
whenever the text starts or ends with whitespace (or is empty).  The
structural recursion below computes exactly that (see `tokenize_eq_scan` for
the leftmost-match characterisation and the concrete examples following it). -/
def tokenize : List Char → List (List Char)
  | [] => [[]]
  | c :: cs =>
    if jsWhitespace c then
      match tokenize cs with
      | [] :: sep :: rest => [] :: (c :: sep) :: rest
      | toks => [] :: [c] :: toks
    else
      match tokenize cs with
      | w :: rest => (c :: w) :: rest
      | [] => [[c]]

/-- The `words` memo of `Memorizer.tsx` (lines 12-15). -/
def words (content : List Char) : List (List Char) :=
  tokenize content

/-- Test `/\S/.test(w)`: does the segment contain a non-whitespace character? -/
def hasNonWS (w : List Char) : Bool :=
  w.any (fun c => !jsWhitespace c)

/-- A word-kind segment: it contains no whitespace character (it may be
empty at the very start or end of the sequence). -/
def WordSeg (t : List Char) : Prop := ∀ c ∈ t, jsWhitespace c = false

/-- A separator-kind segment: a non-empty run of whitespace characters. -/
def SepSeg (t : List Char) : Prop := t ≠ [] ∧ ∀ c ∈ t, jsWhitespace c = true

instance (t : List Char) : Decidable (WordSeg t) :=
  inferInstanceAs (Decidable (∀ c ∈ t, jsWhitespace c = false))

instance (t : List Char) : Decidable (SepSeg t) :=
  inferInstanceAs (Decidable (t ≠ [] ∧ ∀ c ∈ t, jsWhitespace c = true))

/-- Shape of the tokenizer output: it alternates word segments and
separator segments, starting and ending with a word segment. -/
inductive TokShape : List (List Char) → Prop
  | single {w} : WordSeg w → TokShape [w]
  | cons {w s rest} : WordSeg w → SepSeg s → TokShape rest → TokShape (w :: s :: rest)

/-- Lines 18-22 of `Memorizer.tsx`:
`words.map((w, idx) => (/\S/.test(w) ? idx : -1)).filter((idx) => idx !== -1)`. -/
def wordIndices (content : List Char) : List ℤ :=
  (((words content).enum).map
      (fun p => if hasNonWS p.2 then (p.1 : ℤ) else -1)).filter
    (fun idx => idx != -1)

/-- Line 24 of `Memorizer.tsx`: `const totalWords = wordIndices.length`. -/
def totalWords (content : List Char) : ℕ :=
  (wordIndices content).length

/-- JS `Array.prototype.indexOf`: index of the first occurrence, `-1` when
the element is absent. -/
def jsIndexOf : List ℤ → ℤ → ℤ
  | [], _ => -1
  | a :: as, x =>
    if a = x then 0
    else
      let r := jsIndexOf as x
      if r = -1 then -1 else r + 1

/-- Lines 83-86 of `Memorizer.tsx`:
`const actualWordIndex = wordIndices.indexOf(indexInWords);`
`return actualWordIndex !== -1 && actualWordIndex < blackedOutCount;` -/
def isWordBlackedOut (content : List Char) (blackedOutCount : ℤ)
    (indexInWords : ℤ) : Bool :=
  let actualWordIndex := jsIndexOf (wordIndices content) indexInWords
  decide (actualWordIndex ≠ -1 ∧ actualWordIndex < blackedOutCount)

/-- The mutable state of the `Memorizer` component: the `useState` cells
(`blackedOutCount` line 26, `peekIndex` line 27, `isTiming` line 30,
`elapsed` line 31), the `startTimeRef` (line 32), and the deadline of the
peek-expiry `setTimeout` armed by the effect at lines 35-42 (`none` when no
expiry is scheduled; the effect's cleanup guarantees at most one timeout is
ever outstanding).  Timestamps are in milliseconds, `elapsed` in seconds. -/
structure MState where
  blackedOutCount : ℤ
  peekIndex : Option ℤ
  peekExpiry : Option ℚ
  isTiming : Bool
  elapsed : ℚ
  startTime : ℚ
deriving DecidableEq

/-- The initial render: `useState(0)`, `useState(null)`, `useState(false)`,
`useState(0)`, `useRef(0)`. -/
def initState : MState :=
  { blackedOutCount := 0, peekIndex := none, peekExpiry := none,
    isTiming := false, elapsed := 0, startTime := 0 }

/-- Lines 65-69 of `Memorizer.tsx`: `nextStep`. -/
def nextStep (content : List Char) (σ : MState) : MState :=
  if σ.blackedOutCount < (totalWords content : ℤ) then
    { σ with blackedOutCount := σ.blackedOutCount + 1 }
  else σ

/-- Lines 71-75 of `Memorizer.tsx`: `prevStep`. -/
def prevStep (σ : MState) : MState :=
  if σ.blackedOutCount > 0 then
    { σ with blackedOutCount := σ.blackedOutCount - 1 }
  else σ

/-- Lines 49-63 of `Memorizer.tsx`: `toggleTimer`.  The stop branch only calls
`clearInterval` and `setIsTiming(false)`; it leaves `elapsed` at whatever
value the last 100 ms interval tick stored.  The start branch zeroes
`elapsed`, records `startTimeRef.current = Date.now()` and arms the
interval. -/
def toggleTimer (σ : MState) (now : ℚ) : MState :=
  if σ.isTiming then
    { σ with isTiming := false }
  else
    { σ with elapsed := 0, isTiming := true, startTime := now }

/-- The interval callback armed at lines 59-61:
`setElapsed((Date.now() - startTimeRef.current) / 1000)`; it runs only while
the interval is armed, i.e. while `isTiming`. -/
def timerTick (σ : MState) (now : ℚ) : MState :=
  { σ with elapsed := (now - σ.startTime) / 1000 }

/-- The click handler on a word span (lines 214-216):
`if (blacked) setPeekIndex(idx)`, where `blacked = isWordBlackedOut(idx)`.
When `peekIndex` actually changes, the effect at lines 35-42 re-runs: its
cleanup cancels the previously scheduled expiry and a fresh 600 ms expiry is
armed from the current instant.  Setting the state to the value it already
holds is a React bail-out: no re-render, so the effect (and its timer) is
untouched. -/
def clickWord (content : List Char) (σ : MState) (idx : ℤ) (now : ℚ) : MState :=
  if isWordBlackedOut content σ.blackedOutCount idx then
    if σ.peekIndex = some idx then σ
    else { σ with peekIndex := some idx, peekExpiry := some (now + 600) }
  else σ

/-- The scheduled peek-expiry firing (the `setTimeout` callback at lines
37-39 runs `setPeekIndex(null)`; the effect then re-runs with `null` and
arms nothing). -/
def peekExpire (σ : MState) : MState :=
  { σ with peekIndex := none, peekExpiry := none }

/-- Line 208: `const isPeeking = peekIndex === idx`. -/
def isPeeking (σ : MState) (idx : ℤ) : Bool :=
  σ.peekIndex == some idx

/-- Line 88 of `Memorizer.tsx`:
`Math.round((blackedOutCount / totalWords) * 100)`.  When `totalWords = 0`
the JS division yields `NaN` (or `±Infinity`), which `Math.round`
propagates; the non-finite outcome is modelled as `none`.  JS
`Math.round x = ⌊x + 1/2⌋` on finite arguments, which is Mathlib's
`round`. -/
def progressPercentage (blackedOutCount : ℤ) (totalWords : ℕ) : Option ℤ :=
  if totalWords = 0 then none
  else some (round ((blackedOutCount : ℚ) / (totalWords : ℚ) * 100))

/-- Lines 91-94 of `Memorizer.tsx`: the `wpm` memo,
`if (elapsed < 1) return 0; return Math.round(totalWords / (elapsed / 60))`. -/
def wpm (totalWords : ℕ) (elapsed : ℚ) : ℤ :=
  if elapsed < 1 then 0
  else round ((totalWords : ℚ) / (elapsed / 60))

/-- The record returned by `getSpeedFeedback` (lines 96-118). -/
structure SpeedFeedback where
  label : String
  desc : String
  color : String
  bg : String
  border : String
deriving DecidableEq

/-- Lines 96-118 of `Memorizer.tsx`: `getSpeedFeedback`. -/
def getSpeedFeedback (wpm : ℤ) : SpeedFeedback :=
  if wpm < 135 then
    { label := "TOO SLOW", desc := "Trust goes down.",
      color := "text-orange-400", bg := "bg-orange-500/10",
      border := "border-orange-500/20" }
  else if wpm > 185 then
    { label := "TOO FAST", desc := "Trust goes down.",
      color := "text-red-400", bg := "bg-red-500/10",
      border := "border-red-500/20" }
  else
    { label := "SWEET SPOT", desc := "High authority.",
      color := "text-green-400", bg := "bg-green-500/10",
      border := "border-green-500/20" }

/-- A user-driven advance/retreat action ("Blackout Next Word" / "Step
Back"). -/
inductive StepOp
  | advance
  | retreat

/-- Dispatch one advance/retreat action. -/
def applyStep (content : List Char) (σ : MState) : StepOp → MState
  | .advance => nextStep content σ
  | .retreat => prevStep σ

/-- Run a sequence of advance/retreat actions. -/
def runSteps (content : List Char) (σ : MState) (ops : List StepOp) : MState :=
  ops.foldl (applyStep content) σ

/-- A word-leading output of `tokenize`: a non-whitespace head starts the
first (word) segment. -/
theorem tokenize_head_nonws {d : Char} (ds : List Char)
    (hd : jsWhitespace d = false) :
    ∃ w rest, tokenize (d :: ds) = (d :: w) :: rest := by
  rw [tokenize, if_neg (by simp [hd])]
  cases h : tokenize ds with
  | nil => exact ⟨[], [], rfl⟩
  | cons w rest => exact ⟨w, rest, rfl⟩

/-- Characterisation of `tokenize` as the JS `split(/(\s+)/)` scan: emit the
chunk before the leftmost maximal whitespace run, then the run itself
(the capture), and recurse on the remainder; when no whitespace run exists
the whole string is the single (possibly empty) chunk. -/
theorem tokenize_eq_scan (s : List Char) :
    tokenize s =
      if s.dropWhile (fun c => !jsWhitespace c) = [] then
        [s.takeWhile (fun c => !jsWhitespace c)]
      else
        s.takeWhile (fun c => !jsWhitespace c)
          :: (s.dropWhile (fun c => !jsWhitespace c)).takeWhile jsWhitespace
          :: tokenize
              ((s.dropWhile (fun c => !jsWhitespace c)).dropWhile jsWhitespace) := by
  induction s with
  | nil => simp [tokenize]
  | cons c cs ih =>
    by_cases hc : jsWhitespace c
    · have hp : (!jsWhitespace c) = false := by simp [hc]
      rw [List.dropWhile_cons, List.takeWhile_cons, hp]
      simp only [if_false, reduceCtorEq]
      rw [List.takeWhile_cons, List.dropWhile_cons, hc]
      simp only [if_true]
      rw [tokenize, if_pos hc]
      cases cs with
      | nil => simp [tokenize]
      | cons d ds =>
        by_cases hd : jsWhitespace d
        · have hpd : (!jsWhitespace d) = false := by simp [hd]
          rw [List.dropWhile_cons, List.takeWhile_cons, hpd] at ih
          simp only [if_false, reduceCtorEq] at ih
          rw [ih]
        · have hd' : jsWhitespace d = false := by
            simpa using hd
          obtain ⟨w, rest, hw⟩ := tokenize_head_nonws ds hd'
          rw [hw]
          rw [List.takeWhile_cons, List.dropWhile_cons, hd']
          simp only [if_false, reduceCtorEq]
          rw [← hw]
    · have hc' : jsWhitespace c = false := by simpa using hc
      have hp : (!jsWhitespace c) = true := by simp [hc']
      rw [List.dropWhile_cons, List.takeWhile_cons, hp]
      simp only [if_true]
      rw [tokenize, if_neg hc]
      by_cases hnil : cs.dropWhile (fun c => !jsWhitespace c) = []
      · rw [if_pos hnil] at ih
        rw [if_pos hnil, ih]
      · rw [if_neg hnil] at ih
        rw [if_neg hnil, ih]

example :
    tokenize ("Hello   world\nfoo".toList)
      = ["Hello".toList, "   ".toList, "world".toList, "\n".toList,
          "foo".toList] := by
  rfl

example :
    tokenize (" a  b ".toList)
      = [[], " ".toList, "a".toList, "  ".toList, "b".toList, " ".toList,
          []] := by
  rfl

example : tokenize ([] : List Char) = [[]] := by rfl

example : totalWords ("Hello   world\nfoo".toList) = 3 := by rfl

example : totalWords (" \n ".toList) = 0 := by rfl

theorem tokShape_tokenize (s : List Char) : TokShape (tokenize s) := by
  induction s with
  | nil => exact .single (by intro c hc; cases hc)
  | cons c cs ih =>
    rw [tokenize]
    by_cases hc : jsWhitespace c
    · rw [if_pos hc]
      split
      · rename_i sep rest heq
        rw [heq] at ih
        cases ih with
        | cons hw hs hrest =>
          exact .cons (by intro x hx; cases hx)
            ⟨List.cons_ne_nil _ _, by
              intro x hx
              rcases List.mem_cons.mp hx with h | h
              · subst h; exact hc
              · exact hs.2 x h⟩ hrest
      · exact .cons (by intro x hx; cases hx)
          ⟨List.cons_ne_nil _ _, by
            intro x hx
            rcases List.mem_cons.mp hx with h | h
            · subst h; exact hc
            · cases h⟩ ih
    · rw [if_neg hc]
      have hc' : jsWhitespace c = false := Bool.not_eq_true _ ▸ hc
      split
      · rename_i w rest heq
        rw [heq] at ih
        cases ih with
        | single hw =>
          exact .single (by
            intro x hx
            rcases List.mem_cons.mp hx with h | h
            · subst h; exact hc'
            · exact hw x h)
        | cons hw hs hrest =>
          exact .cons (by
            intro x hx
            rcases List.mem_cons.mp hx with h | h
            · subst h; exact hc'
            · exact hw x h) hs hrest
      · exact .single (by
          intro x hx
          rcases List.mem_cons.mp hx with h | h
          · subst h; exact hc'
          · cases h)

theorem TokShape.segments {toks : List (List Char)} (h : TokShape toks) :
    ∀ t ∈ toks, SepSeg t ∨ WordSeg t := by
  induction h with
  | single hw =>
    intro t ht
    rcases List.mem_singleton.mp ht with rfl
    exact Or.inr hw
  | cons hw hs _ ih =>
    intro t ht
    rcases List.mem_cons.mp ht with rfl | ht'
    · exact Or.inr hw
    · rcases List.mem_cons.mp ht' with rfl | ht''
      · exact Or.inl hs
      · exact ih t ht''

/-- C1 — Round-trip: concatenating, in order, all segments produced by
the tokenizer reproduces the input exactly, for every input (including the
empty string and strings with leading/trailing/multiple whitespace). -/
theorem tokenize_roundtrip (s : List Char) : (tokenize s).flatten = s := by
  induction s with
  | nil => simp [tokenize]
  | cons c cs ih =>
    rw [tokenize]
    by_cases hc : jsWhitespace c
    · rw [if_pos hc]
      split
      · rename_i sep rest heq
        rw [heq] at ih
        simpa using ih
      · simpa using ih
    · rw [if_neg hc]
      split
      · rename_i w rest heq
        rw [heq] at ih
        simpa using ih
      · rename_i heq
        rw [heq] at ih
        simp at ih
        simp [ih]

/-- C9 (amended) — every segment the tokenizer produces is homogeneous:
either a separator (a non-empty run consisting entirely of whitespace) or a
word segment (containing no whitespace character).  Word segments are
non-empty except possibly at the two ends of the sequence: when the text is
empty or begins/ends with whitespace, `split(/(\s+)/)` emits an empty
boundary chunk. -/
theorem tokenize_segment_kinds (s : List Char) :
    ∀ t ∈ tokenize s, SepSeg t ∨ WordSeg t :=
  (tokShape_tokenize s).segments

theorem tokenize_segment_kinds_witness : SepSeg [' '] ∨ WordSeg [' '] :=
  tokenize_segment_kinds [' '] [' '] (by decide)

/-- C9 counterexample — the claim that every produced segment is
*non-empty* (and of one of the two kinds) fails on the one-space input: the
output `["", " ", ""]` contains empty segments. -/
theorem tokenize_empty_segment_cex :
    ¬ (∀ t ∈ tokenize [' '], t ≠ [] ∧ (SepSeg t ∨ WordSeg t)) := by
  decide

theorem jsIndexOf_of_not_mem {l : List ℤ} {x : ℤ} (h : x ∉ l) :
    jsIndexOf l x = -1 := by
  induction l with
  | nil => rfl
  | cons a as ih =>
    rw [jsIndexOf]
    rw [List.mem_cons, not_or] at h
    rw [if_neg (fun hax => h.1 hax.symm), ih h.2]
    simp

theorem jsIndexOf_get {l : List ℤ} (hnd : l.Nodup) (r : ℕ) (hr : r < l.length) :
    jsIndexOf l (l.get ⟨r, hr⟩) = (r : ℤ) := by
  induction l generalizing r with
  | nil => exact absurd hr (by simp)
  | cons a as ih =>
    rcases List.nodup_cons.mp hnd with ⟨ha, hnd'⟩
    cases r with
    | zero => simp [jsIndexOf]
    | succ r =>
      have hr' : r < as.length := Nat.lt_of_succ_lt_succ hr
      have hget : (a :: as).get ⟨r + 1, hr⟩ = as.get ⟨r, hr'⟩ := rfl
      rw [hget, jsIndexOf]
      have hne : a ≠ as.get ⟨r, hr'⟩ := fun h => ha (by
        rw [h]; exact as.get_mem r hr')
      rw [if_neg hne, ih hnd' r hr']
      have : ((r : ℤ)) ≠ -1 := by omega
      rw [if_neg this]
      push_cast
      ring

/-- Rewriting of `wordIndices` with the `-1` placeholder fused away: it is the list of
ordinal positions of the word-kind segments. -/
theorem wordIndices_eq (content : List Char) :
    wordIndices content =
      ((words content).enum.filter (fun p => hasNonWS p.2)).map
        (fun p => (p.1 : ℤ)) := by
  unfold wordIndices
  rw [List.filter_map]
  have hfilter :
      List.filter
          ((fun idx => idx != -1) ∘
            (fun p : ℕ × List Char => if hasNonWS p.2 then (p.1 : ℤ) else -1))
          (words content).enum
        = List.filter (fun p => hasNonWS p.2) (words content).enum := by
    apply List.filter_congr
    intro p _
    by_cases h : hasNonWS p.2
    · simp only [Function.comp_apply, h, if_true, bne_iff_ne, ne_eq]
      omega
    · simp [h]
  rw [hfilter]
  apply List.map_congr_left
  intro p hp
  have hm := (List.mem_filter.mp hp).2
  simp [hm]

theorem wordIndices_nodup (content : List Char) : (wordIndices content).Nodup := by
  rw [wordIndices_eq]
  have h1 : ((((words content).enum.filter
      (fun p => hasNonWS p.2)).map Prod.fst)).Nodup := by
    have hs := ((words content).enum.filter_sublist
        (p := fun p => hasNonWS p.2)).map Prod.fst
    rw [List.enum_map_fst] at hs
    exact List.Nodup.sublist hs (List.nodup_range _)
  have hfg : (fun p : ℕ × List Char => ((p.1 : ℤ)))
      = (fun n : ℕ => (n : ℤ)) ∘ Prod.fst := rfl
  rw [hfg, ← List.map_map]
  exact List.Nodup.map Nat.cast_injective h1

/-- C5 — hidden test: for a word of rank `r` (the `r`-th entry of
`wordIndices`), `isWordBlackedOut` at that word's token index returns
exactly `r < blackedOutCount`, for every `blackedOutCount`; and for any
argument that is not the token index of a word it totally returns the safe
default `false`. -/
theorem isWordBlackedOut_spec (content : List Char) (bc : ℤ) (r : ℕ)
    (hr : r < totalWords content) (i : ℤ) (hi : i ∉ wordIndices content) :
    isWordBlackedOut content bc ((wordIndices content).get ⟨r, hr⟩)
        = decide ((r : ℤ) < bc)
      ∧ isWordBlackedOut content bc i = false := by
  constructor
  · unfold isWordBlackedOut
    rw [jsIndexOf_get (wordIndices_nodup content) r hr]
    have : ((r : ℤ)) ≠ -1 := by omega
    simp [this]
  · unfold isWordBlackedOut
    rw [jsIndexOf_of_not_mem hi]
    simp

theorem isWordBlackedOut_spec_witness :
    isWordBlackedOut (['a', ' ', 'b']) 1
        ((wordIndices (['a', ' ', 'b'])).get ⟨0, by decide⟩)
        = decide ((0 : ℤ) < 1)
      ∧ isWordBlackedOut (['a', ' ', 'b']) 1 5 = false :=
  isWordBlackedOut_spec (['a', ' ', 'b']) 1 0 (by decide) 5 (by decide)

theorem applyStep_bounds (content : List Char) (σ : MState) (op : StepOp)
    (h0 : 0 ≤ σ.blackedOutCount)
    (h1 : σ.blackedOutCount ≤ (totalWords content : ℤ)) :
    0 ≤ (applyStep content σ op).blackedOutCount
      ∧ (applyStep content σ op).blackedOutCount ≤ (totalWords content : ℤ) := by
  cases op with
  | advance =>
    simp only [applyStep, nextStep]
    split
    · dsimp only
      omega
    · exact ⟨h0, h1⟩
  | retreat =>
    simp only [applyStep, prevStep]
    split
    · dsimp only
      omega
    · exact ⟨h0, h1⟩

theorem runSteps_bounds (content : List Char) (ops : List StepOp) :
    ∀ σ : MState, 0 ≤ σ.blackedOutCount →
      σ.blackedOutCount ≤ (totalWords content : ℤ) →
      0 ≤ (runSteps content σ ops).blackedOutCount
        ∧ (runSteps content σ ops).blackedOutCount ≤ (totalWords content : ℤ) := by
  induction ops with
  | nil => intro σ h0 h1; exact ⟨h0, h1⟩
  | cons op ops ih =>
    intro σ h0 h1
    have h := applyStep_bounds content σ op h0 h1
    exact ih (applyStep content σ op) h.1 h.2

/-- C4 — for every sequence of advance/retreat calls starting from
`blackedOutCount = 0`, the count stays within `[0, totalWords]`; moreover
`nextStep` increments by exactly 1 when `blackedOutCount < totalWords` and
is a no-op otherwise, and `prevStep` decrements by exactly 1 when
`blackedOutCount > 0` and is a no-op otherwise. -/
theorem blackedOutCount_clamped (content : List Char) (ops : List StepOp) :
    (0 ≤ (runSteps content initState ops).blackedOutCount
      ∧ (runSteps content initState ops).blackedOutCount
          ≤ (totalWords content : ℤ))
    ∧ ∀ σ : MState,
        (σ.blackedOutCount < (totalWords content : ℤ) →
          (nextStep content σ).blackedOutCount = σ.blackedOutCount + 1)
        ∧ (¬ σ.blackedOutCount < (totalWords content : ℤ) →
          nextStep content σ = σ)
        ∧ (0 < σ.blackedOutCount →
          (prevStep σ).blackedOutCount = σ.blackedOutCount - 1)
        ∧ (¬ 0 < σ.blackedOutCount → prevStep σ = σ) := by
  constructor
  · exact runSteps_bounds content ops initState le_rfl (by
      simp [initState])
  · intro σ
    refine ⟨fun h => ?_, fun h => ?_, fun h => ?_, fun h => ?_⟩
    · rw [nextStep, if_pos h]
    · rw [nextStep, if_neg h]
    · rw [prevStep, if_pos h]
    · rw [prevStep, if_neg h]

/-- C10 — a peek request (the click handler) only ever changes the peek
state: `blackedOutCount`, the timer state (`isTiming`, `elapsed`,
`startTime`) are untouched, and the hidden test — which does not read
`peekIndex` — gives the same answer on every token index afterwards, so a
peeked word still counts as hidden. -/
theorem clickWord_frame (content : List Char) (σ : MState) (idx : ℤ)
    (now : ℚ) :
    (clickWord content σ idx now).blackedOutCount = σ.blackedOutCount
    ∧ (clickWord content σ idx now).isTiming = σ.isTiming
    ∧ (clickWord content σ idx now).elapsed = σ.elapsed
    ∧ (clickWord content σ idx now).startTime = σ.startTime
    ∧ ∀ j : ℤ,
        isWordBlackedOut content (clickWord content σ idx now).blackedOutCount j
          = isWordBlackedOut content σ.blackedOutCount j := by
  unfold clickWord
  split_ifs <;> simp

/-- C8 — peek exclusivity and expiry: clicking a blacked-out word `B`
while word `A`'s peek is pending makes `isPeeking B` true and `isPeeking A`
false immediately, and leaves exactly one scheduled expiry outstanding,
timed 600 ms from the new request; when that expiry fires (600 ms with no
further request) the peek is over. -/
theorem peek_exclusive (content : List Char) (σ : MState) (A B : ℤ)
    (now : ℚ) (hA : σ.peekIndex = some A) (hAB : A ≠ B)
    (hB : isWordBlackedOut content σ.blackedOutCount B = true) :
    isPeeking (clickWord content σ B now) B = true
    ∧ isPeeking (clickWord content σ B now) A = false
    ∧ (clickWord content σ B now).peekExpiry = some (now + 600)
    ∧ isPeeking (peekExpire (clickWord content σ B now)) B = false := by
  have hne : σ.peekIndex ≠ some B := by
    rw [hA]
    intro h
    exact hAB (Option.some.inj h)
  unfold clickWord
  rw [if_pos hB, if_neg hne]
  refine ⟨?_, ?_, rfl, ?_⟩
  · simp [isPeeking]
  · simp [isPeeking]
    exact fun h => hAB h.symm
  · simp [isPeeking, peekExpire]

theorem peek_exclusive_witness :
    isPeeking (clickWord (['a', ' ', 'b'])
        { blackedOutCount := 2, peekIndex := some 0, peekExpiry := some 100,
          isTiming := false, elapsed := 0, startTime := 0 } 2 1000) 2 = true
    ∧ isPeeking (clickWord (['a', ' ', 'b'])
        { blackedOutCount := 2, peekIndex := some 0, peekExpiry := some 100,
          isTiming := false, elapsed := 0, startTime := 0 } 2 1000) 0 = false
    ∧ (clickWord (['a', ' ', 'b'])
        { blackedOutCount := 2, peekIndex := some 0, peekExpiry := some 100,
          isTiming := false, elapsed := 0, startTime := 0 } 2 1000).peekExpiry
        = some (1000 + 600)
    ∧ isPeeking (peekExpire (clickWord (['a', ' ', 'b'])
        { blackedOutCount := 2, peekIndex := some 0, peekExpiry := some 100,
          isTiming := false, elapsed := 0, startTime := 0 } 2 1000)) 2 = false :=
  peek_exclusive (['a', ' ', 'b'])
    { blackedOutCount := 2, peekIndex := some 0, peekExpiry := some 100,
      isTiming := false, elapsed := 0, startTime := 0 } 0 2 1000 rfl
    (by decide) (by decide)

/-- C3 counterexample — start the timer at `t = 0` ms, let the interval
tick at `t = 100` ms, stop at `t = 150` ms: the frozen `elapsed` is the
tick's cached `0.1` s, not the `0.15` s that `now - startedAt` at the stop
call would give, so the claim as stated fails. -/
theorem toggleTimer_stop_stale_cex :
    (toggleTimer (timerTick (toggleTimer initState 0) 100) 150).elapsed
      ≠ (150 - (toggleTimer (timerTick (toggleTimer initState 0) 100)
            150).startTime) / 1000 := by
  norm_num [toggleTimer, timerTick, initState]

/-- C3 (amended) — stopping the timer freezes `elapsed` at the value
cached by the most recent interval tick (`(t - startTime)/1000` for the last
tick time `t`); the stop branch of `toggleTimer` does not recompute
`now - startedAt`, so the frozen value can be up to one tick interval
(100 ms) stale. -/
theorem toggleTimer_stop_frozen (σ : MState) (t now : ℚ)
    (h : σ.isTiming = true) :
    (toggleTimer (timerTick σ t) now).elapsed = (t - σ.startTime) / 1000
    ∧ (toggleTimer (timerTick σ t) now).isTiming = false := by
  unfold toggleTimer timerTick
  simp [h]

theorem toggleTimer_stop_frozen_witness :
    (toggleTimer (timerTick
        { blackedOutCount := 0, peekIndex := none, peekExpiry := none,
          isTiming := true, elapsed := 0, startTime := 0 } 100) 150).elapsed
        = (100 - (0 : ℚ)) / 1000
    ∧ (toggleTimer (timerTick
        { blackedOutCount := 0, peekIndex := none, peekExpiry := none,
          isTiming := true, elapsed := 0, startTime := 0 } 100) 150).isTiming
        = false :=
  toggleTimer_stop_frozen
    { blackedOutCount := 0, peekIndex := none, peekExpiry := none,
      isTiming := true, elapsed := 0, startTime := 0 } 100 150 rfl

/-- C2 counterexample — for whitespace-only content `totalWords = 0`, and
the computed progress value is the JS `NaN` (modelled `none`), not `0`: the
code divides by zero with no guard. -/
theorem progress_nan_cex :
    progressPercentage initState.blackedOutCount (totalWords [' ']) ≠ some 0
    ∧ progressPercentage initState.blackedOutCount (totalWords [' ']) = none := by
  constructor <;> decide

/-- C2 (amended) — the progress value equals
`round(100 · blackedOutCount / totalWords)` when `totalWords > 0`; when
`totalWords = 0` (empty or whitespace-only content) the computation is a
division by zero, whose non-finite result (`NaN`) is *not* defined to be
`0`. -/
theorem progressPercentage_spec (bc : ℤ) (content : List Char) :
    (0 < totalWords content →
      progressPercentage bc (totalWords content)
        = some (round ((bc : ℚ) / (totalWords content : ℚ) * 100)))
    ∧ (totalWords content = 0 →
      progressPercentage bc (totalWords content) = none) := by
  constructor
  · intro h
    rw [progressPercentage, if_neg (by omega)]
  · intro h
    rw [progressPercentage, if_pos h]

theorem progressPercentage_spec_witness :
    progressPercentage 1 (totalWords (['a', ' ', 'b']))
      = some (round ((1 : ℚ) / ((totalWords (['a', ' ', 'b']) : ℕ) : ℚ) * 100)) :=
  (progressPercentage_spec 1 (['a', ' ', 'b'])).1 (by decide)

/-- C6 — words-per-minute: `round(totalWords / (elapsed / 60))` when
`elapsed ≥ 1` s, and `0` when `elapsed < 1` s; in particular at
`elapsed = 0.5` s it is `0` for every word count. -/
theorem wpm_spec (total : ℕ) (elapsed : ℚ) :
    (1 ≤ elapsed → wpm total elapsed = round ((total : ℚ) / (elapsed / 60)))
    ∧ (elapsed < 1 → wpm total elapsed = 0)
    ∧ wpm total (1 / 2) = 0 := by
  refine ⟨fun h => ?_, fun h => ?_, ?_⟩
  · rw [wpm, if_neg (not_lt.mpr h)]
  · rw [wpm, if_pos h]
  · rw [wpm, if_pos (by norm_num)]

theorem wpm_spec_witness : wpm 100 (1 / 2) = 0 :=
  (wpm_spec 100 (1 / 2)).2.1 (by norm_num)

/-- C7 — the pace classifier: `TOO SLOW` exactly below 135, `TOO FAST`
exactly above 185, `SWEET SPOT` on `[135, 185]`, with the stated boundary
values. -/
theorem getSpeedFeedback_spec (w : ℤ) :
    ((getSpeedFeedback w).label = "TOO SLOW" ↔ w < 135)
    ∧ ((getSpeedFeedback w).label = "TOO FAST" ↔ 185 < w)
    ∧ ((getSpeedFeedback w).label = "SWEET SPOT" ↔ 135 ≤ w ∧ w ≤ 185)
    ∧ (getSpeedFeedback 134).label = "TOO SLOW"
    ∧ (getSpeedFeedback 135).label = "SWEET SPOT"
    ∧ (getSpeedFeedback 185).label = "SWEET SPOT"
    ∧ (getSpeedFeedback 186).label = "TOO FAST" := by
  refine ⟨?_, ?_, ?_, by decide, by decide, by decide, by decide⟩ <;>
    · unfold getSpeedFeedback
      split_ifs with h1 h2 <;> simp_all <;> omega

end Breathe
